import Mathlib

/-!
# Verification of the readmebot summary generator

Shallow embedding of `src/generator.ts`.  File contents are modelled as lists
of characters (`Str`), split into lines exactly as the JavaScript method
`String.prototype.split` does on a newline separator; the JavaScript
operations used by the source (`indexOf`, `slice`, `splice`, `replace`,
`trim`, template strings, object spread, truthiness) are embedded with
their JavaScript semantics.
-/

namespace Readmebot

/-- A JavaScript string, modelled as its list of characters. -/
abbrev Str := List Char

/-- Embed a Lean string literal as a `Str`. -/
def str (s : String) : Str := s.data

/-- The characters removed by JavaScript `String.prototype.trim`
(the common ASCII whitespace characters used by this repository). -/
def isWs (c : Char) : Bool := c = ' ' || c = '\t' || c = '\n' || c = '\r'

/-- Remove leading whitespace. -/
def ltrim (l : Str) : Str := l.dropWhile isWs

/-- Remove trailing whitespace. -/
def rtrim (l : Str) : Str := (l.reverse.dropWhile isWs).reverse

/-- JavaScript `String.prototype.trim`. -/
def jsTrim (l : Str) : Str := rtrim (ltrim l)

/-- Prepend a character to the first line of a nonempty line list. -/
def consHead (c : Char) : List Str → List Str
  | [] => [[c]]
  | l :: ls => (c :: l) :: ls

/-- JavaScript `content.split('\n')`: split on every newline; always
returns at least one (possibly empty) line. -/
def splitLines : Str → List Str
  | [] => [[]]
  | c :: cs => if c = '\n' then [] :: splitLines cs else consHead c (splitLines cs)

/-- JavaScript `lines.join('\n')`. -/
def joinLines : List Str → Str
  | [] => []
  | [l] => l
  | l :: ls => l ++ '\n' :: joinLines ls

/-- Position of the first occurrence of `x`, if any. -/
def firstIdx (x : Str) : List Str → Option Nat
  | [] => none
  | y :: ys => if y = x then some 0 else (firstIdx x ys).map (· + 1)

/-- JavaScript `Array.prototype.indexOf`: first index, or `-1` if absent. -/
def jsIndexOf (l : List Str) (x : Str) : Int :=
  match firstIdx x l with
  | none => -1
  | some n => n

/-- Normalize a (possibly negative) JavaScript slice index against a length. -/
def jsSliceNorm (len : Nat) (i : Int) : Nat :=
  if i < 0 then (len + i).toNat else min i.toNat len

/-- JavaScript `Array.prototype.slice(start, stop)` with JS index
normalization (negative indices count from the end). -/
def jsSlice (l : List Str) (start stop : Int) : List Str :=
  let s := jsSliceNorm l.length start
  let e := jsSliceNorm l.length stop
  (l.drop s).take (e - s)

/-- JavaScript `Array.prototype.splice(start, deleteCount)` restricted to
removal (a negative `deleteCount` removes nothing), returning the remaining
array. -/
def jsSpliceRemove (l : List Str) (start : Nat) (deleteCount : Int) : List Str :=
  l.take start ++ l.drop (start + deleteCount.toNat)

/-- Does `s` start with `pat`? -/
def leadMatch (pat s : Str) : Bool := decide (s.take pat.length = pat)

/-- JavaScript `s.replace(pat, '')` for a plain-string pattern: remove the
first occurrence of `pat` anywhere in `s` (identity when `pat` is absent). -/
def replaceFirst (pat : Str) : Str → Str
  | [] => []
  | c :: cs =>
    if leadMatch pat (c :: cs) then (c :: cs).drop pat.length
    else c :: replaceFirst pat cs

/-- The shebang test `/^#!.*/.test(line)` from `prefixFileContent`. -/
def isShebang (l : Str) : Bool := leadMatch (str "#!") l

/-- The Node function `path.extname`: the final-dot suffix of the basename, or empty
when the basename has no dot or the only dot is its first character. -/
def extname (p : Str) : Str :=
  let base := (p.reverse.takeWhile (fun c => !(c = '/'))).reverse
  if '.' ∈ base then
    let ext := '.' :: (base.reverse.takeWhile (fun c => !(c = '.'))).reverse
    if ext.length = base.length then [] else ext
  else []

/-- Embedding of `Generator.getFileEnding`. -/
def getFileEnding (filePath : Str) : Str := extname filePath

/-- Embedding of `Generator.getComponents`: the (header, footer, linePrefix) marker
dialect for a file path, or `none` for extensions without a dialect. -/
def getComponents (filePath : Str) : Option (Str × Str × Str) :=
  let e := getFileEnding filePath
  if e = str ".ts" ∨ e = str ".js" ∨ e = str ".tsx" ∨ e = str ".jsx" then
    some (str "/** AUTO-SUMMARY **", str "*** END-SUMMARY **/", str "   ")
  else if e = str ".yaml" ∨ e = str ".yml" ∨ e = str ".sh" then
    some (str "### AUTO-SUMMARY ###", str "### END-SUMMARY ###", str "#  ")
  else none

/-- The `.ts`/`.js`/`.tsx`/`.jsx` dialect header. -/
def tsHeader : Str := str "/** AUTO-SUMMARY **"

/-- The `.ts`/`.js`/`.tsx`/`.jsx` dialect footer. -/
def tsFooter : Str := str "*** END-SUMMARY **/"

/-- The `.ts`/`.js`/`.tsx`/`.jsx` dialect line prefix (three spaces). -/
def tsPad : Str := str "   "

/-- Embedding of `Generator.removeSummaryFromFileContent`: delete the inclusive range
from the first header line through the first footer line; unchanged when
either marker is absent (JS `indexOf` returning `-1`). -/
def removeSummaryFromFileContent (fileContent header footer : Str) : Str :=
  let lines := splitLines fileContent
  let headerLine := jsIndexOf lines header
  let footerLine := jsIndexOf lines footer
  if headerLine = -1 ∨ footerLine = -1 then fileContent
  else joinLines (jsSpliceRemove lines headerLine.toNat (footerLine - headerLine + 1))

/-- Embedding of `Generator.prefixFileContent`: append the comment onto a leading shebang
line, or insert it as a new first element; then `trim` every element and
rejoin. -/
def prefixFileContent (fileContent comment : Str) : Str :=
  let lines := splitLines fileContent
  let lines2 :=
    match lines with
    | [] => [comment]
    | l0 :: rest =>
      if isShebang l0 then (l0 ++ '\n' :: comment) :: rest else comment :: l0 :: rest
  joinLines (lines2.map jsTrim)

/-- The comment template from `summarizeFile` line 206:
`header + '\n' + mappedBody + '\n' + footer + '\n'`, where the body map is
the source ternary (body line equal to the empty string maps to the bare
prefix, any other body line maps to the empty string; note the arms:
an empty summary line becomes the bare prefix, a nonempty one becomes
empty). -/
def composeComment (header footer pad summary : Str) : Str :=
  header ++ '\n' ::
    (joinLines ((splitLines summary).map (fun line => if line = [] then pad ++ line else []))
      ++ '\n' :: footer ++ ['\n'])

/-- Embedding of `Generator.regexExtractSummary` on an already-split line list. -/
def regexExtractLines (lines : List Str) (header footer pad : Str) : Str :=
  let headerLine := jsIndexOf lines header
  let footerLine := jsIndexOf lines footer
  let summaryLines := jsSlice lines (headerLine + 1) footerLine
  joinLines (summaryLines.map (fun line => replaceFirst pad line))

/-- Embedding of `Generator.regexExtractSummary` (the `filePath` argument is unused by
the source as well). -/
def regexExtractSummary (_filePath fileContent header footer pad : Str) : Str :=
  regexExtractLines (splitLines fileContent) header footer pad

/-- The content transformation performed by decision step 4 on a
non-excluded file: remove any existing block, then splice in the freshly
composed one (`summarizeFile` lines 206-209). -/
def annotateContent (header footer pad summary fileContent : Str) : Str :=
  prefixFileContent (removeSummaryFromFileContent fileContent header footer)
    (composeComment header footer pad summary)

/-- Count delimited summary blocks in a line list: a block is a line exactly
equal to `header` followed (not necessarily adjacently) by a line exactly
equal to `footer`; scanning is greedy and blocks are disjoint.  The flag
records whether a header has been seen and a footer is awaited. -/
def countBlocksAux (header footer : Str) : Bool → List Str → Nat
  | _, [] => 0
  | false, l :: ls =>
    if l = header then countBlocksAux header footer true ls
    else countBlocksAux header footer false ls
  | true, l :: ls =>
    if l = footer then 1 + countBlocksAux header footer false ls
    else countBlocksAux header footer true ls

/-- Number of summary blocks in a line list. -/
def countBlocks (header footer : Str) (ls : List Str) : Nat :=
  countBlocksAux header footer false ls

/-! ## The cache document, the oracle, and the orchestrator -/

/-- A parsed JSON value as this program manipulates them: the cache document
is an object whose values are strings (as `compileSummaries` writes them) or
objects (as `getExistingCapturedSummaries` expects them). -/
inductive JValue where
  | jstr (s : Str)
  | jobj (fields : List (Str × JValue))

/-- JavaScript truthiness of a JSON value: the empty string is falsy, every
other string and every object is truthy. -/
def jsTruthy : JValue → Bool
  | JValue.jstr s => decide (s ≠ [])
  | JValue.jobj _ => true

/-- Property lookup `obj[k]` on the field list of an object (first match). -/
def jsLookup (fields : List (Str × JValue)) (k : Str) : Option JValue :=
  (fields.find? (fun kv => kv.1 = k)).map (·.2)

/-- JavaScript property access `v.k`: a field of an object, `undefined`
(here `none`) on a string. -/
def jsField : JValue → Str → Option JValue
  | JValue.jstr _, _ => none
  | JValue.jobj fs, k => jsLookup fs k

/-- The object spread and assignment `{...obj, [k]: v}`: replace the value of an existing key in place, or
append a new key at the end. -/
def jsObjectInsert : List (Str × JValue) → Str → JValue → List (Str × JValue)
  | [], k, v => [(k, v)]
  | (k0, v0) :: rest, k, v =>
    if k0 = k then (k0, v) :: rest else (k0, v0) :: jsObjectInsert rest k v

/-- The `message` object of an OpenAI chat completion choice. -/
structure AIMessage where
  content : Option Str

/-- One element of the `choices` array of an OpenAI chat completion. -/
structure AIChoice where
  message : Option AIMessage

/-- An OpenAI chat completion response, as consumed by the source. -/
structure AIResponse where
  choices : List AIChoice

/-- Embedding of `Generator.getSummaryFromAI`: the request itself is external,
so the raw response of the oracle is a parameter (`none` models no response
at all).  Mirrors the source: throw when there is no response, otherwise
take the first choice, optionally chain to its trimmed message content, and
fall back to the placeholder text (the JS or-else of an undefined or empty
string); indexing an empty `choices` array makes the property access on
`undefined` throw a `TypeError`. -/
def getSummaryFromAI (_filePath _contentToSummarize : Str)
    (response : Option AIResponse) : Except Str Str :=
  match response with
  | none => Except.error (str "Failed to generate summary")
  | some r =>
    match r.choices.head? with
    | none => Except.error (str "TypeError: cannot read properties of undefined")
    | some choice =>
      match (choice.message.bind AIMessage.content).map jsTrim with
      | none => Except.ok (str "No summary provided")
      | some t => Except.ok (if t = [] then str "No summary provided" else t)

/-- The file-system and oracle effects a `summarizeFile` call performs. -/
inductive FsEvent where
  | readFile (p : Str)
  | readCache
  | oracleCall (p : Str)
  | writeFile (p : Str) (content : Str)

/-- What one `summarizeFile` call produces: its returned value (`none`
models the implicit `undefined` return; an `error` models a thrown
exception), the content written back to the file if any, and the ordered
effect trace. -/
structure FileOutcome where
  result : Except Str (Option (Str × JValue))
  newContent : Option Str
  events : List FsEvent

/-- The extension allow-list of `summarizeFile`. -/
def allowedExtensions : List Str :=
  [str ".ts", str ".js", str ".json", str ".tsx", str ".jsx",
   str ".yaml", str ".yml", str ".sh"]

/-- The embed-exclusion list of `summarizeFile`. -/
def embedExclusions : List Str := [str ".json"]

/-- The sentinel summary returned for unsupported file types. -/
def skipMessage : Str := str "Skipped. File type not supported."

/-- The check `capturedSummaries[filePath] && capturedSummaries[filePath].summary`
(lines 185-186): the cached value for the path when it is truthy and has a
truthy `summary` property. -/
def cachedSummary (cache : List (Str × JValue)) (filePath : Str) : Option JValue :=
  match jsLookup cache filePath with
  | none => none
  | some v =>
    if jsTruthy v then
      match jsField v (str "summary") with
      | none => none
      | some sv => if jsTruthy sv then some sv else none
    else none

/-- Embedding of `Generator.summarizeFile`.  The file content and the parsed cache
document stand for the reads the source performs unconditionally at lines
171-173 (recorded in the trace); `response` is the raw oracle answer,
consulted only if the oracle is actually called.  When `getComponents`
yields no dialect, the template string at line 206 interpolates
`undefined` as the string `"undefined"`. -/
def summarizeFile (force : Bool) (cache : List (Str × JValue))
    (response : Option AIResponse) (filePath fileContent : Str) : FileOutcome :=
  let ext := getFileEnding filePath
  let ev0 : List FsEvent := [FsEvent.readFile filePath, FsEvent.readCache]
  if ext ∈ allowedExtensions then
    let summary0 := cachedSummary cache filePath
    if ext ∈ embedExclusions ∧ summary0.isSome = true then
      { result := Except.ok (some (filePath, summary0.getD (JValue.jstr []))),
        newContent := none, events := ev0 }
    else
      let comps := getComponents filePath
      let header := (comps.map (·.1)).getD (str "undefined")
      let footer := (comps.map (·.2.1)).getD (str "undefined")
      let pad := (comps.map (·.2.2)).getD (str "undefined")
      if comps.isSome = true ∧ (header <:+: fileContent) ∧ (footer <:+: fileContent)
          ∧ force = false then
        { result := Except.ok (some (filePath,
            JValue.jstr (regexExtractSummary filePath fileContent header footer pad))),
          newContent := none, events := ev0 }
      else if summary0.isNone = true ∨ force = true then
        match getSummaryFromAI filePath fileContent response with
        | Except.error e =>
          { result := Except.error e, newContent := none,
            events := ev0 ++ [FsEvent.oracleCall filePath] }
        | Except.ok aiSummary =>
          if ext ∈ embedExclusions then
            { result := Except.ok (some (filePath, JValue.jstr aiSummary)),
              newContent := none, events := ev0 ++ [FsEvent.oracleCall filePath] }
          else
            let newC := prefixFileContent
              (removeSummaryFromFileContent fileContent header footer)
              (composeComment header footer pad aiSummary)
            { result := Except.ok (some (filePath, JValue.jstr aiSummary)),
              newContent := some newC,
              events := ev0 ++ [FsEvent.oracleCall filePath,
                                FsEvent.writeFile filePath newC] }
      else
        { result := Except.ok none, newContent := none, events := ev0 }
  else
    { result := Except.ok (some (filePath, JValue.jstr skipMessage)),
      newContent := none, events := ev0 }

/-- Embedding of `Generator.summarizeAllFiles`: sequential fold over the discovered
files (given here with their contents and per-file oracle responses);
truthy results are collected, an `undefined` result is dropped, a thrown
error aborts the batch. -/
def summarizeAllFiles (force : Bool) (cache : List (Str × JValue))
    (oracle : Str → Option AIResponse) :
    List (Str × Str) → Except Str (List (Str × JValue))
  | [] => Except.ok []
  | (p, c) :: rest =>
    match (summarizeFile force cache (oracle p) p c).result with
    | Except.error e => Except.error e
    | Except.ok none => summarizeAllFiles force cache oracle rest
    | Except.ok (some r) => (summarizeAllFiles force cache oracle rest).map (r :: ·)

/-- Embedding of `Generator.compileSummaries`: fold the results into one JSON object via
`(obj, {filePath, summary}) => ({...obj, [filePath]: summary})` and write it
wholesale.  The returned field list is the persisted document. -/
def compileSummaries (summaries : List (Str × JValue)) : List (Str × JValue) :=
  summaries.foldl (fun obj kv => jsObjectInsert obj kv.1 kv.2) []

/-- The options record taken by the constructor. -/
structure GeneratorOptions where
  force : Option Bool

/-- The constructor assignment of the force flag: options force when given,
true otherwise. -/
def generatorForce (options : Option GeneratorOptions) : Bool :=
  (options.bind GeneratorOptions.force).getD true

/-- Cache document for the C10 scenario: `a.ts` has a cached object entry with
a non-empty `summary` field. -/
def c10Cache : List (Str × JValue) :=
  [(str "a.ts", JValue.jobj
    [(str "filePath", JValue.jstr (str "a.ts")),
     (str "summary", JValue.jstr (str "S"))])]

/-- The body-line list produced by the map in the comment template at line 206. -/
def commentBody (pad : Str) (summary : Str) : List Str :=
  (splitLines summary).map (fun line => if line = [] then pad ++ line else [])

/-- The shape the line list of a file has right after an annotation pass:
an optional leading shebang line, the exact header, body lines free of the
footer, the exact footer, and a tail of already-trimmed lines that are not
markers. -/
def blockShaped (header footer : Str) (c : Str) : Prop :=
  ∃ P M R, splitLines c = P ++ header :: (M ++ footer :: R) ∧
    (P = [] ∨ ∃ p0, P = [p0] ∧ isShebang p0 = true) ∧
    (∀ l ∈ M, l ≠ footer) ∧
    (∀ l ∈ R, jsTrim l = l ∧ l ≠ header ∧ l ≠ footer)

/-! ## Supporting lemmas -/

theorem consHead_ne_nil (c : Char) (ls : List Str) : consHead c ls ≠ [] := by
  cases ls <;> simp [consHead]

theorem splitLines_ne_nil (s : Str) : splitLines s ≠ [] := by
  induction s with
  | nil => simp [splitLines]
  | cons c cs ih =>
    simp only [splitLines]
    split
    · simp
    · exact consHead_ne_nil c (splitLines cs)

theorem consHead_append (c : Char) (ls ms : List Str) (h : ls ≠ []) :
    consHead c (ls ++ ms) = consHead c ls ++ ms := by
  cases ls with
  | nil => exact absurd rfl h
  | cons l ls2 => simp [consHead]

theorem splitLines_append_newline (a b : Str) :
    splitLines (a ++ '\n' :: b) = splitLines a ++ splitLines b := by
  induction a with
  | nil => simp [splitLines]
  | cons c cs ih =>
    by_cases hc : c = '\n'
    · subst hc; simp [splitLines, ih]
    · simp only [List.cons_append, splitLines, if_neg hc, List.append_eq]
      rw [ih]
      exact consHead_append c (splitLines cs) (splitLines b) (splitLines_ne_nil cs)

theorem noNL_mem_splitLines (s : Str) : ∀ l ∈ splitLines s, '\n' ∉ l := by
  induction s with
  | nil =>
    intro l hl
    simp only [splitLines, List.mem_singleton] at hl
    subst hl; simp
  | cons c cs ih =>
    intro l hl
    simp only [splitLines] at hl
    by_cases hc : c = '\n'
    · rw [if_pos hc] at hl
      rcases List.mem_cons.mp hl with h1 | h1
      · subst h1; simp
      · exact ih l h1
    · rw [if_neg hc] at hl
      cases hsp : splitLines cs with
      | nil => exact absurd hsp (splitLines_ne_nil cs)
      | cons x xs =>
        rw [hsp] at hl
        simp only [consHead] at hl
        rcases List.mem_cons.mp hl with h1 | h1
        · subst h1
          intro hmem
          rcases List.mem_cons.mp hmem with h2 | h2
          · exact hc h2.symm
          · exact ih x (by rw [hsp]; exact List.mem_cons_self ..) h2
        · exact ih l (by rw [hsp]; exact List.mem_cons_of_mem x h1)

theorem splitLines_of_noNL (l : Str) (h : '\n' ∉ l) : splitLines l = [l] := by
  induction l with
  | nil => rfl
  | cons c cs ih =>
    have hc : ¬ c = '\n' := fun he => h (he ▸ List.mem_cons_self ..)
    have hcs : '\n' ∉ cs := fun hm => h (List.mem_cons_of_mem _ hm)
    simp [splitLines, if_neg hc, ih hcs, consHead]

theorem joinLines_cons (l : Str) (ls : List Str) (h : ls ≠ []) :
    joinLines (l :: ls) = l ++ '\n' :: joinLines ls := by
  cases ls with
  | nil => exact absurd rfl h
  | cons m ms => rfl

theorem splitLines_joinLines (ls : List Str) (h : ls ≠ []) :
    splitLines (joinLines ls) = (ls.map splitLines).flatten := by
  induction ls with
  | nil => exact absurd rfl h
  | cons l ms ih =>
    cases ms with
    | nil => simp [joinLines]
    | cons m ms2 =>
      rw [joinLines_cons l _ (by simp), splitLines_append_newline, ih (by simp)]
      simp

theorem flatten_splitLines_of_noNL (ls : List Str) (h : ∀ l ∈ ls, '\n' ∉ l) :
    (ls.map splitLines).flatten = ls := by
  induction ls with
  | nil => rfl
  | cons l ms ih =>
    simp [splitLines_of_noNL l (h l (by simp)),
      ih (fun x hx => h x (List.mem_cons_of_mem _ hx))]

theorem splitLines_joinLines_cons (a : Str) (bs : List Str)
    (h : ∀ l ∈ bs, '\n' ∉ l) :
    splitLines (joinLines (a :: bs)) = splitLines a ++ bs := by
  rw [splitLines_joinLines _ (by simp)]
  simp [flatten_splitLines_of_noNL bs h]

theorem splitLines_joinLines_of_noNL (ls : List Str) (h : ls ≠ [])
    (hnl : ∀ l ∈ ls, '\n' ∉ l) : splitLines (joinLines ls) = ls := by
  rw [splitLines_joinLines ls h, flatten_splitLines_of_noNL ls hnl]

/-! ### Trimming lemmas -/

theorem ltrim_cons_of_not_ws (c : Char) (l : Str) (h : isWs c = false) :
    ltrim (c :: l) = c :: l := by
  simp [ltrim, List.dropWhile_cons, h]

theorem dropWhile_append_last (p : Char → Bool) (xs : List Char) (c : Char)
    (h : p c = false) :
    List.dropWhile p (xs ++ [c]) = List.dropWhile p xs ++ [c] := by
  induction xs with
  | nil => simp [List.dropWhile_cons, h]
  | cons x xs ih => by_cases hx : p x = true <;>
      simp [List.dropWhile_cons, hx, ih]

theorem rtrim_cons_of_not_ws (c : Char) (l : Str) (h : isWs c = false) :
    rtrim (c :: l) = c :: rtrim l := by
  simp [rtrim, dropWhile_append_last _ _ _ h]

theorem rtrim_append_ws (l : Str) (c : Char) (h : isWs c = true) :
    rtrim (l ++ [c]) = rtrim l := by
  simp [rtrim, List.dropWhile_cons, h]

theorem rtrim_append_not_ws (l : Str) (c : Char) (h : isWs c = false) :
    rtrim (l ++ [c]) = l ++ [c] := by
  simp [rtrim, List.dropWhile_cons, h]

theorem dropWhile_dropWhile (p : Char → Bool) (l : List Char) :
    List.dropWhile p (List.dropWhile p l) = List.dropWhile p l := by
  induction l with
  | nil => rfl
  | cons c cs ih => by_cases h : p c = true <;>
      simp [List.dropWhile_cons, h, ih]

theorem rtrim_rtrim (l : Str) : rtrim (rtrim l) = rtrim l := by
  simp [rtrim, dropWhile_dropWhile]

theorem ltrim_result (l : Str) :
    ltrim l = [] ∨ ∃ c t, ltrim l = c :: t ∧ isWs c = false := by
  induction l with
  | nil => exact Or.inl rfl
  | cons c cs ih =>
    by_cases h : isWs c = true
    · simpa [ltrim, List.dropWhile_cons, h] using ih
    · exact Or.inr ⟨c, cs, by simp [ltrim, List.dropWhile_cons, h],
        by simpa using h⟩

theorem jsTrim_idem (l : Str) : jsTrim (jsTrim l) = jsTrim l := by
  unfold jsTrim
  rcases ltrim_result l with h | ⟨c, t, h, hc⟩
  · rw [h]; rfl
  · rw [h, rtrim_cons_of_not_ws _ _ hc, ltrim_cons_of_not_ws _ _ hc,
      rtrim_cons_of_not_ws _ _ hc, rtrim_rtrim]

theorem mem_ltrim (x : Char) (l : Str) (h : x ∈ ltrim l) : x ∈ l := by
  induction l with
  | nil => simp [ltrim] at h
  | cons c cs ih =>
    by_cases hc : isWs c = true
    · rw [ltrim, List.dropWhile_cons, if_pos hc] at h
      exact List.mem_cons_of_mem _ (ih h)
    · rw [ltrim, List.dropWhile_cons, if_neg hc] at h
      exact h

theorem mem_rtrim (x : Char) (l : Str) (h : x ∈ rtrim l) : x ∈ l := by
  rw [rtrim, List.mem_reverse] at h
  have := mem_ltrim x l.reverse h
  rwa [List.mem_reverse] at this

theorem noNL_jsTrim (l : Str) (h : '\n' ∉ l) : '\n' ∉ jsTrim l :=
  fun hm => h (mem_ltrim _ _ (mem_rtrim _ _ hm))

theorem getLastD_append_singleton (l : Str) (a d : Char) :
    (l ++ [a]).getLastD d = a := by
  induction l generalizing d with
  | nil => rfl
  | cons c cs ih => rw [List.cons_append, List.getLastD_cons, ih]

theorem jsTrim_fix (l : Str) (hne : l ≠ [])
    (hh : isWs (l.headD ' ') = false) (hl : isWs (l.getLastD ' ') = false) :
    jsTrim l = l := by
  cases l with
  | nil => exact absurd rfl hne
  | cons c t =>
    simp only [List.headD] at hh
    rcases List.eq_nil_or_concat (c :: t) with h0 | ⟨L, b, h0⟩
    · exact absurd h0 (by simp)
    · rw [List.concat_eq_append] at h0
      rw [jsTrim, ltrim_cons_of_not_ws _ _ hh, h0, rtrim_append_not_ws]
      rw [h0, getLastD_append_singleton] at hl
      exact hl

theorem jsTrim_drop_trailing_nl (x : Str) (hne : x ≠ [])
    (hh : isWs (x.headD ' ') = false) (hl : isWs (x.getLastD ' ') = false) :
    jsTrim (x ++ ['\n']) = x := by
  cases x with
  | nil => exact absurd rfl hne
  | cons c t =>
    simp only [List.headD] at hh
    rw [jsTrim, List.cons_append, ltrim_cons_of_not_ws _ _ hh,
      ← List.cons_append, rtrim_append_ws _ _ (by decide)]
    have := jsTrim_fix (c :: t) hne hh hl
    rw [jsTrim, ltrim_cons_of_not_ws _ _ hh] at this
    exact this

/-! ### Index, slice and splice lemmas -/

theorem firstIdx_eq_none (x : Str) (l : List Str) (h : x ∉ l) :
    firstIdx x l = none := by
  induction l with
  | nil => rfl
  | cons y ys ih =>
    have hy : ¬ y = x := fun he => h (he ▸ List.mem_cons_self ..)
    simp [firstIdx, hy, ih (fun hm => h (List.mem_cons_of_mem _ hm))]

theorem firstIdx_append (x : Str) (A B : List Str) (h : x ∉ A) :
    firstIdx x (A ++ x :: B) = some A.length := by
  induction A with
  | nil => simp [firstIdx]
  | cons a as ih =>
    have ha : ¬ a = x := fun he => h (he ▸ List.mem_cons_self ..)
    simp [firstIdx, ha, ih (fun hm => h (List.mem_cons_of_mem _ hm))]

theorem jsIndexOf_of_firstIdx (l : List Str) (x : Str) (n : Nat)
    (h : firstIdx x l = some n) : jsIndexOf l x = (n : Int) := by
  simp [jsIndexOf, h]

theorem jsIndexOf_of_not_mem (l : List Str) (x : Str) (h : x ∉ l) :
    jsIndexOf l x = -1 := by
  simp [jsIndexOf, firstIdx_eq_none x l h]

theorem jsSlice_middle (A B C2 : List Str) (x y : Str) :
    jsSlice (A ++ x :: (B ++ y :: C2)) ((A.length : Int) + 1)
      ((A.length + 1 + B.length : Nat) : Int) = B := by
  simp only [jsSlice, jsSliceNorm]
  have hlen : (A ++ x :: (B ++ y :: C2)).length =
      A.length + 1 + B.length + 1 + C2.length := by simp; omega
  rw [if_neg (by omega), if_neg (by omega), hlen]
  have h1 : ((A.length : Int) + 1).toNat = A.length + 1 := by omega
  have h2 : ((A.length + 1 + B.length : Nat) : Int).toNat =
      A.length + 1 + B.length := by omega
  rw [h1, h2, min_eq_left (by omega), min_eq_left (by omega)]
  have h3 : A.length + 1 + B.length - (A.length + 1) = B.length := by omega
  rw [h3]
  have h4 : A ++ x :: (B ++ y :: C2) = (A ++ [x]) ++ (B ++ y :: C2) := by simp
  rw [h4, List.drop_left' (by simp), List.take_left' rfl]

theorem removeSummary_found (P M R : List Str) (h f content : Str)
    (hsplit : splitLines content = P ++ h :: (M ++ f :: R))
    (hP : h ∉ P) (fP : f ∉ P) (fM : f ∉ M) (hf : f ≠ h) :
    removeSummaryFromFileContent content h f = joinLines (P ++ R) := by
  simp only [removeSummaryFromFileContent]
  rw [hsplit]
  have e1 : jsIndexOf (P ++ h :: (M ++ f :: R)) h = (P.length : Int) :=
    jsIndexOf_of_firstIdx _ _ _ (firstIdx_append h P _ hP)
  have hshape : P ++ h :: (M ++ f :: R) = (P ++ h :: M) ++ f :: R := by simp
  have e2 : jsIndexOf (P ++ h :: (M ++ f :: R)) f =
      ((P.length + 1 + M.length : Nat) : Int) := by
    rw [hshape]
    have hf2 : f ∉ P ++ h :: M := by
      intro hm
      rcases List.mem_append.mp hm with hm | hm
      · exact fP hm
      · rcases List.mem_cons.mp hm with hm | hm
        · exact hf hm
        · exact fM hm
    rw [jsIndexOf_of_firstIdx _ _ _ (firstIdx_append f _ _ hf2)]
    simp; omega
  rw [e1, e2, if_neg (by omega)]
  have h1 : ((P.length : Int)).toNat = P.length := by omega
  have h2 : (((P.length + 1 + M.length : Nat) : Int) - (P.length : Int) + 1).toNat =
      M.length + 2 := by omega
  rw [h1]
  simp only [jsSpliceRemove]
  rw [h2]
  have h4 : P ++ h :: (M ++ f :: R) = (P ++ h :: (M ++ [f])) ++ R := by simp
  rw [List.take_left]
  have h5 : (P ++ h :: (M ++ [f])).length = P.length + (M.length + 2) := by
    simp
  have h6 : ((P ++ h :: (M ++ [f])) ++ R).drop (P.length + (M.length + 2)) = R :=
    List.drop_left' h5
  rw [h4, h6]

theorem removeSummary_absent (content h f : Str)
    (habs : h ∉ splitLines content ∨ f ∉ splitLines content) :
    removeSummaryFromFileContent content h f = content := by
  unfold removeSummaryFromFileContent
  rcases habs with hc | hc
  · rw [if_pos (Or.inl (jsIndexOf_of_not_mem _ _ hc))]
  · rw [if_pos (Or.inr (jsIndexOf_of_not_mem _ _ hc))]

/-! ### Structure of `prefixFileContent` -/

theorem prefixFileContent_shebang (content comment l0 : Str) (rest : List Str)
    (hsplit : splitLines content = l0 :: rest) (hsb : isShebang l0 = true) :
    splitLines (prefixFileContent content comment) =
      splitLines (jsTrim (l0 ++ '\n' :: comment)) ++ rest.map jsTrim := by
  unfold prefixFileContent
  rw [hsplit]
  simp only [hsb, if_true]
  rw [List.map_cons]
  exact splitLines_joinLines_cons _ _ (by
    intro l hl
    rcases List.mem_map.mp hl with ⟨l1, hl1, he⟩
    exact he ▸ noNL_jsTrim l1
      (noNL_mem_splitLines content l1 (hsplit ▸ List.mem_cons_of_mem _ hl1)))

theorem prefixFileContent_normal (content comment l0 : Str) (rest : List Str)
    (hsplit : splitLines content = l0 :: rest) (hsb : isShebang l0 = false) :
    splitLines (prefixFileContent content comment) =
      splitLines (jsTrim comment) ++ (l0 :: rest).map jsTrim := by
  unfold prefixFileContent
  rw [hsplit]
  simp only [hsb, if_false, Bool.false_eq_true]
  rw [List.map_cons]
  exact splitLines_joinLines_cons _ _ (by
    intro l hl
    rcases List.mem_map.mp hl with ⟨l1, hl1, he⟩
    exact he ▸ noNL_jsTrim l1
      (noNL_mem_splitLines content l1 (hsplit ▸ hl1)))

/-! ### Counting blocks -/

theorem countBlocksAux_false_no_header (h f : Str) (ls : List Str)
    (hno : ∀ l ∈ ls, l ≠ h) : countBlocksAux h f false ls = 0 := by
  induction ls with
  | nil => rfl
  | cons l ms ih =>
    rw [countBlocksAux, if_neg (hno l (List.mem_cons_self ..))]
    exact ih (fun x hx => hno x (List.mem_cons_of_mem _ hx))

theorem countBlocksAux_false_append (h f : Str) (P ls : List Str)
    (hno : ∀ l ∈ P, l ≠ h) :
    countBlocksAux h f false (P ++ ls) = countBlocksAux h f false ls := by
  induction P with
  | nil => rfl
  | cons l ms ih =>
    rw [List.cons_append, countBlocksAux, if_neg (hno l (List.mem_cons_self ..))]
    exact ih (fun x hx => hno x (List.mem_cons_of_mem _ hx))

theorem countBlocksAux_true_append (h f : Str) (M ls : List Str)
    (hno : ∀ l ∈ M, l ≠ f) :
    countBlocksAux h f true (M ++ ls) = countBlocksAux h f true ls := by
  induction M with
  | nil => rfl
  | cons l ms ih =>
    rw [List.cons_append, countBlocksAux, if_neg (hno l (List.mem_cons_self ..))]
    exact ih (fun x hx => hno x (List.mem_cons_of_mem _ hx))

theorem countBlocks_shape (h f : Str) (P M R : List Str)
    (hP : ∀ l ∈ P, l ≠ h) (hM : ∀ l ∈ M, l ≠ f) (hR : ∀ l ∈ R, l ≠ h) :
    countBlocks h f (P ++ h :: (M ++ f :: R)) = 1 := by
  unfold countBlocks
  rw [countBlocksAux_false_append h f P _ hP, countBlocksAux, if_pos rfl,
    countBlocksAux_true_append h f M _ hM, countBlocksAux, if_pos rfl,
    countBlocksAux_false_no_header h f R hR]

/-! ### Replacement and marker-shape lemmas -/

theorem leadMatch_append (p r : Str) : leadMatch p (p ++ r) = true := by
  simp [leadMatch, List.take_left]

theorem replaceFirst_append_self (p r : Str) : replaceFirst p (p ++ r) = r := by
  rcases hp : p ++ r with _ | ⟨c, cs⟩
  · rcases List.append_eq_nil.mp hp with ⟨h1, h2⟩
    subst h1; subst h2; rfl
  · simp only [replaceFirst]
    rw [← hp]
    simp [leadMatch_append, List.drop_left]

theorem str_shebang_chars : str "#!" = ['#', '!'] := rfl

theorem isShebang_shape (l : Str) (h : isShebang l = true) :
    ∃ t, l = '#' :: '!' :: t := by
  cases l with
  | nil => simp [isShebang, leadMatch, str_shebang_chars] at h
  | cons a m =>
    cases m with
    | nil => simp [isShebang, leadMatch, str_shebang_chars] at h
    | cons b t =>
      simp only [isShebang, leadMatch, str_shebang_chars, List.length_cons,
        List.length_nil, List.take, decide_eq_true_eq] at h
      obtain ⟨h1, h2⟩ := List.cons_eq_cons.mp h
      obtain ⟨h2, _⟩ := List.cons_eq_cons.mp h2
      subst h1; subst h2; exact ⟨t, rfl⟩

theorem jsTrim_shebang (l : Str) (h : isShebang l = true) :
    isShebang (jsTrim l) = true := by
  obtain ⟨t, rfl⟩ := isShebang_shape l h
  rw [jsTrim, ltrim_cons_of_not_ws _ _ (by decide),
    rtrim_cons_of_not_ws _ _ (by decide), rtrim_cons_of_not_ws _ _ (by decide)]
  simp [isShebang, leadMatch, str_shebang_chars]

theorem headD_append_of_ne_nil (a b : Str) (d : Char) (ha : a ≠ []) :
    (a ++ b).headD d = a.headD d := by
  cases a with
  | nil => exact absurd rfl ha
  | cons c t => rfl

theorem getLastD_append_of_ne_nil (a f : Str) (d : Char) (hf : f ≠ []) :
    (a ++ f).getLastD d = f.getLastD d := by
  rcases List.eq_nil_or_concat f with h | ⟨L, b, h⟩
  · exact absurd h hf
  · rw [List.concat_eq_append] at h
    subst h
    rw [← List.append_assoc, getLastD_append_singleton, getLastD_append_singleton]

/-! ### The composed comment and its trim -/

theorem composeComment_eq (h f p s : Str) :
    composeComment h f p s =
      h ++ '\n' :: (joinLines (commentBody p s) ++ '\n' :: f ++ ['\n']) := rfl

theorem commentBody_ne_nil (p s : Str) : commentBody p s ≠ [] := by
  intro hm
  exact splitLines_ne_nil s (List.map_eq_nil_iff.mp hm)

theorem commentBody_mem (p s l : Str) (h : l ∈ commentBody p s) :
    l = [] ∨ l = p := by
  rcases List.mem_map.mp h with ⟨x, _, he⟩
  by_cases hxe : x = []
  · right; rw [← he, if_pos hxe, hxe]; simp
  · left; rw [← he, if_neg hxe]

theorem splitLines_commentBody (p s : Str) (pnl : '\n' ∉ p) :
    splitLines (joinLines (commentBody p s)) = commentBody p s :=
  splitLines_joinLines_of_noNL _ (commentBody_ne_nil p s) (fun l hl => by
    rcases commentBody_mem p s l hl with h | h <;> subst h
    · simp
    · exact pnl)

theorem jsTrim_composeComment (h f p s : Str)
    (hne : h ≠ []) (hh : isWs (h.headD ' ') = false)
    (fne : f ≠ []) (fl : isWs (f.getLastD ' ') = false) :
    jsTrim (composeComment h f p s) =
      h ++ '\n' :: (joinLines (commentBody p s) ++ '\n' :: f) := by
  rw [composeComment_eq]
  have hassoc : h ++ '\n' :: (joinLines (commentBody p s) ++ '\n' :: f ++ ['\n']) =
      (h ++ '\n' :: (joinLines (commentBody p s) ++ '\n' :: f)) ++ ['\n'] := by
    simp
  rw [hassoc]
  apply jsTrim_drop_trailing_nl
  · simp [hne]
  · rw [headD_append_of_ne_nil _ _ _ hne]; exact hh
  · have h2 : h ++ '\n' :: (joinLines (commentBody p s) ++ '\n' :: f) =
        (h ++ '\n' :: (joinLines (commentBody p s) ++ ['\n'])) ++ f := by simp
    rw [h2, getLastD_append_of_ne_nil _ _ _ fne]
    exact fl

theorem jsTrim_shebang_comment (l0 h f p s : Str) (hsb : isShebang l0 = true)
    (fne : f ≠ []) (fl : isWs (f.getLastD ' ') = false) :
    jsTrim (l0 ++ '\n' :: composeComment h f p s) =
      l0 ++ '\n' :: (h ++ '\n' :: (joinLines (commentBody p s) ++ '\n' :: f)) := by
  obtain ⟨t, rfl⟩ := isShebang_shape l0 hsb
  rw [composeComment_eq]
  have hassoc : ('#' :: '!' :: t) ++ '\n' ::
        (h ++ '\n' :: (joinLines (commentBody p s) ++ '\n' :: f ++ ['\n'])) =
      (('#' :: '!' :: t) ++ '\n' ::
        (h ++ '\n' :: (joinLines (commentBody p s) ++ '\n' :: f))) ++ ['\n'] := by
    simp
  rw [hassoc]
  apply jsTrim_drop_trailing_nl
  · simp
  · exact (by decide : isWs '#' = false)
  · have h2 : ('#' :: '!' :: t) ++ '\n' ::
        (h ++ '\n' :: (joinLines (commentBody p s) ++ '\n' :: f)) =
        (('#' :: '!' :: t) ++ '\n' :: (h ++ '\n' ::
          (joinLines (commentBody p s) ++ ['\n']))) ++ f := by simp
    rw [h2, getLastD_append_of_ne_nil _ _ _ fne]
    exact fl

theorem splitLines_trimmed_comment (h f p s : Str)
    (hnl : '\n' ∉ h) (fnl : '\n' ∉ f) (pnl : '\n' ∉ p) :
    splitLines (h ++ '\n' :: (joinLines (commentBody p s) ++ '\n' :: f)) =
      h :: (commentBody p s ++ [f]) := by
  rw [splitLines_append_newline, splitLines_of_noNL h hnl,
    splitLines_append_newline, splitLines_of_noNL f fnl,
    splitLines_commentBody p s pnl]
  simp

/-! ### The single-block shape invariant under re-annotation -/

theorem prefix_shaped (h f p s : Str)
    (hne : h ≠ []) (hh : isWs (h.headD ' ') = false)
    (fne : f ≠ []) (fl : isWs (f.getLastD ' ') = false)
    (hnl : '\n' ∉ h) (fnl : '\n' ∉ f) (pnl : '\n' ∉ p)
    (pf : p ≠ f) (content1 : Str)
    (hall : ∀ l ∈ splitLines content1, jsTrim l ≠ h ∧ jsTrim l ≠ f) :
    blockShaped h f (prefixFileContent content1 (composeComment h f p s)) := by
  have hMcond : ∀ l ∈ commentBody p s, l ≠ f := by
    intro l hl
    rcases commentBody_mem p s l hl with he | he <;> subst he
    · exact fun hc => fne hc.symm
    · exact pf
  cases hsp : splitLines content1 with
  | nil => exact absurd hsp (splitLines_ne_nil content1)
  | cons l0 rest =>
    by_cases hsb : isShebang l0 = true
    · refine ⟨[l0], commentBody p s, rest.map jsTrim, ?_,
        Or.inr ⟨l0, rfl, hsb⟩, hMcond, ?_⟩
      · rw [prefixFileContent_shebang content1 _ l0 rest hsp hsb,
          jsTrim_shebang_comment l0 h f p s hsb fne fl,
          splitLines_append_newline,
          splitLines_of_noNL l0
            (noNL_mem_splitLines content1 l0 (hsp ▸ List.mem_cons_self ..)),
          splitLines_trimmed_comment h f p s hnl fnl pnl]
        simp
      · intro l hl
        rcases List.mem_map.mp hl with ⟨x, hx, he⟩
        subst he
        have hx2 := hall x (hsp ▸ List.mem_cons_of_mem _ hx)
        exact ⟨jsTrim_idem x, hx2.1, hx2.2⟩
    · rw [Bool.not_eq_true] at hsb
      refine ⟨[], commentBody p s, (l0 :: rest).map jsTrim, ?_,
        Or.inl rfl, hMcond, ?_⟩
      · rw [prefixFileContent_normal content1 _ l0 rest hsp hsb,
          jsTrim_composeComment h f p s hne hh fne fl,
          splitLines_trimmed_comment h f p s hnl fnl pnl]
        simp
      · intro l hl
        rcases List.mem_map.mp hl with ⟨x, hx, he⟩
        subst he
        have hx2 := hall x (hsp ▸ hx)
        exact ⟨jsTrim_idem x, hx2.1, hx2.2⟩

theorem annotate_blockShaped (h f p : Str)
    (hne : h ≠ []) (hh : isWs (h.headD ' ') = false)
    (hl2 : isWs (h.getLastD ' ') = false)
    (fne : f ≠ []) (fl : isWs (f.getLastD ' ') = false)
    (hnl : '\n' ∉ h) (fnl : '\n' ∉ f) (pnl : '\n' ∉ p)
    (pf : p ≠ f) (hfne : h ≠ f)
    (hsb : isShebang h = false) (fsb : isShebang f = false)
    (c s : Str)
    (hc : (∀ l ∈ splitLines c, jsTrim l ≠ h ∧ jsTrim l ≠ f) ∨
      blockShaped h f c) :
    blockShaped h f (annotateContent h f p s c) := by
  unfold annotateContent
  rcases hc with hclean | ⟨P, M, R, hsplit, hP, hM, hR⟩
  · have hrm : removeSummaryFromFileContent c h f = c := by
      apply removeSummary_absent
      left
      intro hmem
      have hcl := (hclean h hmem).1
      rw [jsTrim_fix h hne hh hl2] at hcl
      exact hcl rfl
    rw [hrm]
    exact prefix_shaped h f p s hne hh fne fl hnl fnl pnl pf c hclean
  · have hPh : h ∉ P := by
      rcases hP with rfl | ⟨p0, rfl, hp0⟩
      · simp
      · rw [List.mem_singleton]
        intro he; subst he; rw [hp0] at hsb; exact Bool.noConfusion hsb
    have hPf : f ∉ P := by
      rcases hP with rfl | ⟨p0, rfl, hp0⟩
      · simp
      · rw [List.mem_singleton]
        intro he; subst he; rw [hp0] at fsb; exact Bool.noConfusion fsb
    have hMf : f ∉ M := fun hm => hM f hm rfl
    have hrm := removeSummary_found P M R h f c hsplit hPh hPf hMf
      (fun he => hfne he.symm)
    rw [hrm]
    apply prefix_shaped h f p s hne hh fne fl hnl fnl pnl pf
    intro l hl
    by_cases hPR : P ++ R = []
    · rw [hPR] at hl
      have hl2b : l = [] := by
        simpa [joinLines, splitLines] using hl
      subst hl2b
      exact ⟨fun he => hne he.symm, fun he => fne he.symm⟩
    · have hnoNL : ∀ x ∈ P ++ R, '\n' ∉ x := by
        intro x hx
        apply noNL_mem_splitLines c
        rw [hsplit]
        rcases List.mem_append.mp hx with hx | hx
        · exact List.mem_append.mpr (Or.inl hx)
        · exact List.mem_append.mpr (Or.inr (List.mem_cons_of_mem _
            (List.mem_append.mpr (Or.inr (List.mem_cons_of_mem _ hx)))))
      rw [splitLines_joinLines_of_noNL (P ++ R) hPR hnoNL] at hl
      rcases List.mem_append.mp hl with hm | hm
      · rcases hP with rfl | ⟨p0, rfl, hp0⟩
        · simp at hm
        · rw [List.mem_singleton] at hm
          subst hm
          have hts := jsTrim_shebang l hp0
          constructor
          · intro he; rw [he] at hts; rw [hts] at hsb
            exact Bool.noConfusion hsb
          · intro he; rw [he] at hts; rw [hts] at fsb
            exact Bool.noConfusion fsb
      · have hx2 := hR l hm
        rw [hx2.1]
        exact ⟨hx2.2.1, hx2.2.2⟩

theorem blockShaped_count (h f : Str) (hne : h ≠ [])
    (hsb : isShebang h = false) (c : Str) (hshape : blockShaped h f c) :
    countBlocks h f (splitLines c) = 1 := by
  obtain ⟨P, M, R, hsplit, hP, hM, hR⟩ := hshape
  rw [hsplit]
  apply countBlocks_shape
  · rcases hP with rfl | ⟨p0, rfl, hp0⟩
    · simp
    · intro l hl
      rw [List.mem_singleton] at hl
      subst hl
      intro he; subst he; rw [hp0] at hsb; exact Bool.noConfusion hsb
  · exact hM
  · intro l hl; exact (hR l hl).2.1

theorem foldl_annotate_shaped (h f p : Str)
    (hne : h ≠ []) (hh : isWs (h.headD ' ') = false)
    (hl2 : isWs (h.getLastD ' ') = false)
    (fne : f ≠ []) (fl : isWs (f.getLastD ' ') = false)
    (hnl : '\n' ∉ h) (fnl : '\n' ∉ f) (pnl : '\n' ∉ p)
    (pf : p ≠ f) (hfne : h ≠ f)
    (hsb : isShebang h = false) (fsb : isShebang f = false)
    (ss : List Str) (c : Str) (hc : blockShaped h f c) :
    blockShaped h f
      (ss.foldl (fun acc s => annotateContent h f p s acc) c) := by
  induction ss generalizing c with
  | nil => exact hc
  | cons s ss ih =>
    exact ih _ (annotate_blockShaped h f p hne hh hl2 fne fl hnl fnl pnl pf
      hfne hsb fsb c s (Or.inr hc))

/-- C1: the round-trip invariant fails on the code.  Inserting a block for
the one-line summary `Hello` into `let x = 1` and extracting it back yields
the empty string, not `Hello`: the ternary at line 206 maps every nonempty
summary line to the empty string, so the composed comment carries an empty
body. -/
theorem c1_roundtrip_fails_eval :
    regexExtractSummary (str "a.ts")
        (annotateContent tsHeader tsFooter tsPad (str "Hello") (str "let x = 1"))
        tsHeader tsFooter tsPad = str "" ∧
      str "" ≠ str "Hello" ∧
      composeComment tsHeader tsFooter tsPad (str "Hello") =
        str "/** AUTO-SUMMARY **\n\n*** END-SUMMARY **/\n" :=
  ⟨rfl, by decide, rfl⟩

/-- C2: `compileSummaries` persists each result as `filePath ↦ summary`
(a bare string), not as `filePath ↦ {filePath, summary}`: on the example
results the written document maps `a.ts` to the string `S1`, which is not
the claimed object and has no `summary` property for the cache reader to
find. -/
theorem c2_compile_writes_strings_eval :
    compileSummaries
        [(str "a.ts", JValue.jstr (str "S1")), (str "b.yml", JValue.jstr (str "S2"))] =
      [(str "a.ts", JValue.jstr (str "S1")), (str "b.yml", JValue.jstr (str "S2"))] ∧
    jsLookup (compileSummaries
        [(str "a.ts", JValue.jstr (str "S1")), (str "b.yml", JValue.jstr (str "S2"))])
        (str "a.ts") = some (JValue.jstr (str "S1")) ∧
    JValue.jstr (str "S1") ≠ JValue.jobj
        [(str "filePath", JValue.jstr (str "a.ts")),
         (str "summary", JValue.jstr (str "S1"))] ∧
    jsField (JValue.jstr (str "S1")) (str "summary") = none :=
  ⟨rfl, rfl, fun h => JValue.noConfusion h, rfl⟩

/-- C3 counterexample: with a response whose message content is whitespace
only (unusable content), `getSummaryFromAI` succeeds with the placeholder
`No summary provided` instead of failing. -/
theorem c3_placeholder_not_error :
    getSummaryFromAI (str "a.ts") (str "let x = 1")
        (some (AIResponse.mk [AIChoice.mk (some (AIMessage.mk (some (str "  "))))])) =
      Except.ok (str "No summary provided") ∧
    (getSummaryFromAI (str "a.ts") (str "let x = 1")
        (some (AIResponse.mk [AIChoice.mk (some (AIMessage.mk (some (str "  "))))]))).isOk
      = true :=
  ⟨rfl, rfl⟩

/-- C4 counterexample: for the unsupported path `img.png`, `summarizeFile`
reads the file and the cache (the trace records both reads), and the skip
result flows through the batch into the compiled cache document, which then
contains an entry for `img.png`. -/
theorem c4_skip_reads_and_caches :
    (summarizeFile true [] none (str "img.png") (str "data")).events =
      [FsEvent.readFile (str "img.png"), FsEvent.readCache] ∧
    summarizeAllFiles true [] (fun _ => none) [(str "img.png", str "data")] =
      Except.ok [(str "img.png", JValue.jstr skipMessage)] ∧
    jsLookup (compileSummaries [(str "img.png", JValue.jstr skipMessage)])
        (str "img.png") = some (JValue.jstr skipMessage) :=
  ⟨rfl, rfl, rfl⟩

/-- C5 counterexample: on a file with no header line at all but a footer
line, the extractor does not report "absent": JS `indexOf` yields `-1` for
the header, the slice runs from index 0, and the nonempty text before the
footer is returned as the block body. -/
theorem c5_missing_header_not_absent :
    regexExtractSummary (str "a.ts") (str "secret\n*** END-SUMMARY **/")
        tsHeader tsFooter tsPad = str "secret" ∧
      str "secret" ≠ str "" :=
  ⟨rfl, by decide⟩

/-- C6 counterexample: the line `x   y` between the markers does not start
with the three-space line prefix, yet `line.replace(prefix, '')` removes the
interior three-space occurrence, yielding `xy` instead of the untouched
`x   y`. -/
theorem c6_interior_occurrence_stripped :
    regexExtractSummary (str "a.ts")
        (str "/** AUTO-SUMMARY **\nx   y\n*** END-SUMMARY **/")
        tsHeader tsFooter tsPad = str "xy" ∧
      str "xy" ≠ str "x   y" :=
  ⟨rfl, by decide⟩

/-- C7 counterexample: a file whose content contains zero summary blocks
(its marker-like lines carry extra whitespace, so neither is an exact
match) contains two blocks after a single re-annotation: the per-line
`trim` in `prefixFileContent` turns the near-marker lines into exact
markers. -/
theorem c7_two_blocks_after_rerun :
    countBlocks tsHeader tsFooter
        (splitLines (str "  /** AUTO-SUMMARY **\nx\n  *** END-SUMMARY **/")) = 0 ∧
    countBlocks tsHeader tsFooter
        (splitLines (annotateContent tsHeader tsFooter tsPad (str "S")
          (str "  /** AUTO-SUMMARY **\nx\n  *** END-SUMMARY **/"))) = 2 :=
  ⟨rfl, rfl⟩

/-- C10: on a supported, non-excluded `.ts` file with a cached non-empty
summary, force disabled, and neither marker in the content, `summarizeFile`
returns `undefined` (neither a result nor a skip marker), the batch runner
drops the file from its result list, and the subsequent compile writes a
cache document with no entry for it. -/
theorem c10_undefined_result_drops_entry :
    (summarizeFile false c10Cache none (str "a.ts") (str "let x = 1")).result =
      Except.ok none ∧
    summarizeAllFiles false c10Cache (fun _ => none) [(str "a.ts", str "let x = 1")] =
      Except.ok [] ∧
    compileSummaries [] = [] ∧
    jsLookup (compileSummaries []) (str "a.ts") = none :=
  ⟨rfl, rfl, rfl, rfl⟩

/-- C3 (amended): with no response at all the oracle call throws
(`Failed to generate summary`), but with a response whose first choice has
absent or trim-empty message content the call succeeds with the placeholder
`No summary provided`. -/
theorem c3_oracle_failure_modes (fp content : Str) (r : AIResponse)
    (choice : AIChoice) (hhead : r.choices.head? = some choice)
    (hempty : (choice.message.bind AIMessage.content).map jsTrim = none ∨
      (choice.message.bind AIMessage.content).map jsTrim = some []) :
    getSummaryFromAI fp content none =
      Except.error (str "Failed to generate summary") ∧
    getSummaryFromAI fp content (some r) =
      Except.ok (str "No summary provided") := by
  refine ⟨rfl, ?_⟩
  simp only [getSummaryFromAI, hhead]
  rcases hempty with he | he
  · rw [he]
  · rw [he]; simp

/-- Witness for `c3_oracle_failure_modes` at a concrete response with
absent message content. -/
theorem c3_oracle_failure_modes_witness :
    getSummaryFromAI (str "a.ts") (str "let x = 1") none =
      Except.error (str "Failed to generate summary") ∧
    getSummaryFromAI (str "a.ts") (str "let x = 1")
      (some (AIResponse.mk [AIChoice.mk (some (AIMessage.mk none))])) =
      Except.ok (str "No summary provided") :=
  c3_oracle_failure_modes (str "a.ts") (str "let x = 1")
    (AIResponse.mk [AIChoice.mk (some (AIMessage.mk none))])
    (AIChoice.mk (some (AIMessage.mk none))) rfl (Or.inl rfl)

/-- C4 (amended): for an unsupported extension `summarizeFile` returns the
skip sentinel, writes nothing, calls no oracle — but its trace starts with
the unconditional file and cache reads, and the batch/compile pipeline
persists a cache entry holding the skip text. -/
theorem c4_unsupported_skip (force : Bool) (cache : List (Str × JValue))
    (response : Option AIResponse) (oracle : Str → Option AIResponse)
    (filePath fileContent : Str)
    (hx : getFileEnding filePath ∉ allowedExtensions) :
    (summarizeFile force cache response filePath fileContent).result =
      Except.ok (some (filePath, JValue.jstr skipMessage)) ∧
    (summarizeFile force cache response filePath fileContent).newContent = none ∧
    (summarizeFile force cache response filePath fileContent).events =
      [FsEvent.readFile filePath, FsEvent.readCache] ∧
    summarizeAllFiles force cache oracle [(filePath, fileContent)] =
      Except.ok [(filePath, JValue.jstr skipMessage)] ∧
    jsLookup (compileSummaries [(filePath, JValue.jstr skipMessage)]) filePath =
      some (JValue.jstr skipMessage) := by
  have hout : ∀ resp : Option AIResponse,
      summarizeFile force cache resp filePath fileContent =
      { result := Except.ok (some (filePath, JValue.jstr skipMessage)),
        newContent := none,
        events := [FsEvent.readFile filePath, FsEvent.readCache] } := by
    intro resp
    simp only [summarizeFile]
    rw [if_neg hx]
  refine ⟨by rw [hout response], by rw [hout response], by rw [hout response], ?_, ?_⟩
  · simp only [summarizeAllFiles, hout (oracle filePath)]; rfl
  · simp [compileSummaries, jsObjectInsert, jsLookup, List.find?]

/-- Witness for `c4_unsupported_skip` at the unsupported path
`logo.jpeg`. -/
theorem c4_unsupported_skip_witness :
    (summarizeFile false [] none (str "logo.jpeg") (str "bytes")).result =
      Except.ok (some (str "logo.jpeg", JValue.jstr skipMessage)) ∧
    (summarizeFile false [] none (str "logo.jpeg") (str "bytes")).newContent = none ∧
    (summarizeFile false [] none (str "logo.jpeg") (str "bytes")).events =
      [FsEvent.readFile (str "logo.jpeg"), FsEvent.readCache] ∧
    summarizeAllFiles false [] (fun _ => none) [(str "logo.jpeg", str "bytes")] =
      Except.ok [(str "logo.jpeg", JValue.jstr skipMessage)] ∧
    jsLookup (compileSummaries [(str "logo.jpeg", JValue.jstr skipMessage)])
      (str "logo.jpeg") = some (JValue.jstr skipMessage) :=
  c4_unsupported_skip false [] none (fun _ => none) (str "logo.jpeg")
    (str "bytes") (by decide)

/-- C5 (amended): when both sentinels occur and the first footer line is at
or before the first header line, the extractor returns the empty string
(and in particular does not throw). -/
theorem c5_empty_when_footer_first (fp content h f p : Str) (ih jf : Nat)
    (hh : firstIdx h (splitLines content) = some ih)
    (hf : firstIdx f (splitLines content) = some jf)
    (hle : jf ≤ ih) :
    regexExtractSummary fp content h f p = [] := by
  simp only [regexExtractSummary, regexExtractLines]
  rw [jsIndexOf_of_firstIdx _ _ _ hh, jsIndexOf_of_firstIdx _ _ _ hf]
  simp only [jsSlice, jsSliceNorm]
  rw [if_neg (by omega), if_neg (by omega)]
  have h1 : ((jf : Int)).toNat = jf := by omega
  have h2 : ((ih : Int) + 1).toNat = ih + 1 := by omega
  rw [h1, h2]
  have h3 : min jf (splitLines content).length -
      min (ih + 1) (splitLines content).length = 0 :=
    Nat.sub_eq_zero_of_le (min_le_min (by omega) (le_refl _))
  rw [h3]
  simp [joinLines]

/-- Witness for `c5_empty_when_footer_first`: a `.ts` file whose footer line
precedes its header line extracts to the empty string. -/
theorem c5_empty_when_footer_first_witness :
    regexExtractSummary (str "a.ts")
      (str "*** END-SUMMARY **/\n/** AUTO-SUMMARY **")
      tsHeader tsFooter tsPad = str "" :=
  c5_empty_when_footer_first (str "a.ts")
    (str "*** END-SUMMARY **/\n/** AUTO-SUMMARY **")
    tsHeader tsFooter tsPad 1 0 (by decide) (by decide) (by decide)

/-- C6 (amended): between the first header line and the first footer line,
each extracted line has the first occurrence of the line prefix anywhere in
it removed; removing a leading occurrence (`replaceFirst p (p ++ r) = r`)
is the special case of a line that actually starts with the prefix. -/
theorem c6_extract_between_markers (A B C2 : List Str) (h f p : Str)
    (hA : h ∉ A) (fA : f ∉ A) (fB : f ∉ B) (fh : f ≠ h) :
    regexExtractLines (A ++ h :: (B ++ f :: C2)) h f p =
      joinLines (B.map (fun line => replaceFirst p line)) ∧
    (∀ r : Str, replaceFirst p (p ++ r) = r) := by
  constructor
  · simp only [regexExtractLines]
    have e1 : jsIndexOf (A ++ h :: (B ++ f :: C2)) h = (A.length : Int) :=
      jsIndexOf_of_firstIdx _ _ _ (firstIdx_append h A _ hA)
    have e2 : jsIndexOf (A ++ h :: (B ++ f :: C2)) f =
        ((A.length + 1 + B.length : Nat) : Int) := by
      have hshape : A ++ h :: (B ++ f :: C2) = (A ++ h :: B) ++ f :: C2 := by
        simp
      rw [hshape]
      have hf2 : f ∉ A ++ h :: B := by
        intro hm
        rcases List.mem_append.mp hm with hm | hm
        · exact fA hm
        · rcases List.mem_cons.mp hm with hm | hm
          · exact fh hm
          · exact fB hm
      rw [jsIndexOf_of_firstIdx _ _ _ (firstIdx_append f _ _ hf2)]
      simp; omega
    rw [e1, e2, jsSlice_middle]
  · exact fun r => replaceFirst_append_self p r

/-- Witness for `c6_extract_between_markers` on a concrete `.ts` block. -/
theorem c6_extract_between_markers_witness :
    regexExtractLines [str "a", tsHeader, str "   x", tsFooter]
      tsHeader tsFooter tsPad = str "x" ∧
    replaceFirst tsPad (tsPad ++ str "hello") = str "hello" := by
  have h := c6_extract_between_markers [str "a"] [str "   x"] []
    tsHeader tsFooter tsPad (by decide) (by decide) (by decide) (by decide)
  exact ⟨h.1.trans (by decide), h.2 (str "hello")⟩

/-- C8: inserting a composed block preserves a leading shebang as the
physically first line, unchanged, with the block joined onto the same
logical first element by a line break; on any other content the lines of
the block become the new first lines. -/
theorem c8_shebang_preserved (c s h f p : Str)
    (hne : h ≠ []) (hh : isWs (h.headD ' ') = false)
    (fne : f ≠ []) (fl : isWs (f.getLastD ' ') = false)
    (hnl : '\n' ∉ h) (fnl : '\n' ∉ f) (pnl : '\n' ∉ p) :
    (∀ l0 rest, splitLines c = l0 :: rest → isShebang l0 = true →
      splitLines (prefixFileContent c (composeComment h f p s)) =
        l0 :: h :: (commentBody p s ++ f :: rest.map jsTrim)) ∧
    (∀ l0 rest, splitLines c = l0 :: rest → isShebang l0 = false →
      splitLines (prefixFileContent c (composeComment h f p s)) =
        h :: (commentBody p s ++ f :: (l0 :: rest).map jsTrim)) := by
  constructor
  · intro l0 rest hsplit hsb
    rw [prefixFileContent_shebang c _ l0 rest hsplit hsb,
      jsTrim_shebang_comment l0 h f p s hsb fne fl,
      splitLines_append_newline,
      splitLines_of_noNL l0
        (noNL_mem_splitLines c l0 (hsplit ▸ List.mem_cons_self ..)),
      splitLines_trimmed_comment h f p s hnl fnl pnl]
    simp
  · intro l0 rest hsplit hsb
    rw [prefixFileContent_normal c _ l0 rest hsplit hsb,
      jsTrim_composeComment h f p s hne hh fne fl,
      splitLines_trimmed_comment h f p s hnl fnl pnl]
    simp

/-- Witness for `c8_shebang_preserved`: the example content from the spec, and
a contents-without-shebang companion. -/
theorem c8_shebang_preserved_witness :
    splitLines (prefixFileContent (str "#!/usr/bin/env node\nconsole.log(1)")
        (composeComment tsHeader tsFooter tsPad (str "Hello"))) =
      [str "#!/usr/bin/env node", tsHeader, str "", tsFooter,
       str "console.log(1)"] ∧
    splitLines (prefixFileContent (str "let x = 1")
        (composeComment tsHeader tsFooter tsPad (str "Hello"))) =
      [tsHeader, str "", tsFooter, str "let x = 1"] := by
  have h1 := (c8_shebang_preserved (str "#!/usr/bin/env node\nconsole.log(1)")
    (str "Hello") tsHeader tsFooter tsPad (by decide) (by decide) (by decide)
    (by decide) (by decide) (by decide) (by decide)).1
    (str "#!/usr/bin/env node") [str "console.log(1)"] (by decide) (by decide)
  have h2 := (c8_shebang_preserved (str "let x = 1") (str "Hello") tsHeader
    tsFooter tsPad (by decide) (by decide) (by decide) (by decide) (by decide)
    (by decide) (by decide)).2 (str "let x = 1") [] (by decide) (by decide)
  exact ⟨h1.trans (by decide), h2.trans (by decide)⟩

/-- C9: the constructor defaults `force` to `true` when options (or the
force option) are absent, and with `force = true` the oracle is invoked for
every supported file that is not an embed-excluded file with a truthy
cached summary; the reuse-from-file branch requires `!force` and so is
never reached. -/
theorem c9_force_default_oracle_always :
    (∀ o : Option GeneratorOptions, o.bind GeneratorOptions.force = none →
      generatorForce o = true) ∧
    (∀ (cache : List (Str × JValue)) (response : Option AIResponse)
      (filePath fileContent : Str),
      getFileEnding filePath ∈ allowedExtensions →
      ¬ (getFileEnding filePath ∈ embedExclusions ∧
          (cachedSummary cache filePath).isSome = true) →
      FsEvent.oracleCall filePath ∈
        (summarizeFile true cache response filePath fileContent).events) := by
  constructor
  · intro o ho; simp [generatorForce, ho]
  · intro cache response filePath fileContent hsupp hnot
    simp only [summarizeFile]
    rw [if_pos hsupp, if_neg hnot, if_pos (Or.inr trivial)]
    cases hAI : getSummaryFromAI filePath fileContent response with
    | error e => simp
    | ok aiSummary =>
      by_cases hexc : getFileEnding filePath ∈ embedExclusions <;>
        simp [hexc]

/-- Witness for `c9_force_default_oracle_always` at a concrete supported
file with an empty cache. -/
theorem c9_force_default_oracle_always_witness :
    generatorForce none = true ∧
    FsEvent.oracleCall (str "a.ts") ∈
      (summarizeFile true [] none (str "a.ts") (str "let x = 1")).events :=
  ⟨c9_force_default_oracle_always.1 none rfl,
   c9_force_default_oracle_always.2 [] none (str "a.ts") (str "let x = 1")
     (by decide) (by decide)⟩

/-- C7 (amended): for a dialect with whitespace-stable, newline-free,
non-shebang markers, and a file none of whose lines trims to the header or
the footer, any positive number of re-annotations leaves exactly one
summary block in the content. -/
theorem c7_single_block_for_clean_content (h f p : Str)
    (hne : h ≠ []) (hh : isWs (h.headD ' ') = false)
    (hl2 : isWs (h.getLastD ' ') = false)
    (fne : f ≠ []) (fl : isWs (f.getLastD ' ') = false)
    (hnl : '\n' ∉ h) (fnl : '\n' ∉ f) (pnl : '\n' ∉ p)
    (pf : p ≠ f) (hfne : h ≠ f)
    (hsb : isShebang h = false) (fsb : isShebang f = false)
    (c : Str)
    (hclean : ∀ l ∈ splitLines c, jsTrim l ≠ h ∧ jsTrim l ≠ f)
    (summaries : List Str) (hne2 : summaries ≠ []) :
    countBlocks h f (splitLines
      (summaries.foldl (fun acc s => annotateContent h f p s acc) c)) = 1 := by
  cases summaries with
  | nil => exact absurd rfl hne2
  | cons s0 rest =>
    rw [List.foldl_cons]
    have h1 : blockShaped h f (annotateContent h f p s0 c) :=
      annotate_blockShaped h f p hne hh hl2 fne fl hnl fnl pnl pf hfne hsb fsb
        c s0 (Or.inl hclean)
    have h2 := foldl_annotate_shaped h f p hne hh hl2 fne fl hnl fnl pnl pf
      hfne hsb fsb rest _ h1
    exact blockShaped_count h f hne hsb _ h2

/-- Witness for `c7_single_block_for_clean_content`: two successive
re-annotations of a marker-free `.ts` file leave exactly one block. -/
theorem c7_single_block_for_clean_content_witness :
    countBlocks tsHeader tsFooter (splitLines
      ([str "S", str "T"].foldl
        (fun acc s => annotateContent tsHeader tsFooter tsPad s acc)
        (str "let x = 1"))) = 1 :=
  c7_single_block_for_clean_content tsHeader tsFooter tsPad (by decide)
    (by decide) (by decide) (by decide) (by decide) (by decide) (by decide)
    (by decide) (by decide) (by decide) (by decide) (by decide)
    (str "let x = 1") (by decide) [str "S", str "T"] (by decide)

end Readmebot
